import Mathlib

/-!
Verification development for the `sdat2img` transfer-list decoder and image
reconstructor (C++ source: `sdat2img.cpp`).

The C++ program reads a textual "transfer list" (a versioned, line-oriented
recipe of block-range operations) plus a raw block data stream, and rebuilds a
block image.  This file gives a shallow embedding of the core:

* string tokenisation (`split` on a delimiter, as the C++ `getline`-based
  helper behaves),
* C++ stream extraction of `size_t` and `int` values (including the modular
  wrap-around of negative input for unsigned targets, per `std::num_get`),
* `parseRanges`, `TransferList::toOperations`, `TransferList::parse`,
* the `std::multimap<Command, ByteSegments>` operation store (ordered by
  command, insertion-order stable within one command, as C++11 guarantees),
* `TransferList::max`, `ByteSegments::writeToFile` and the replay loop of
  `main` (seek/write on the output file, sequential reads on the data stream,
  final `resize_file`).

Machine integers (`size_t` alias `FileSizeT`) are modelled as `Nat` with
explicit reduction modulo `2 ^ 64` wherever the C++ arithmetic wraps.
Files are modelled as byte lists; the data stream carries an explicit cursor.
All definitions are executable so concrete runs can be checked by `decide`.
-/

deriving instance DecidableEq for Except

namespace Sdat2img

set_option maxRecDepth 2000

/-- Modulus of the C++ `size_t` / `FileSizeT` type (64-bit). -/
def U64 : Nat := 2 ^ 64

/-- The format's block size constant: `constexpr static int BLOCK_SIZE = 4096`. -/
def BLOCK_SIZE : Nat := 4096

/-- Wrapping subtraction of `size_t` values (both arguments assumed `< U64`),
as performed by expressions such as `_end - _begin` in the source. -/
def wrapSub (a b : Nat) : Nat := (a + U64 - b) % U64

/-! ## C++ stream extraction of integers

`operator>>` on an integer skips leading whitespace, accepts an optional sign
followed by decimal digits, and stops at the first non-digit.  Extraction
fails (failbit) when no digit is present or when the represented value is out
of range of the target type.  For an unsigned target a negative field is
negated modulo `2 ^ 64` (C++ `std::num_get` via `strtoull`). -/

/-- Whitespace characters skipped by stream extraction (C locale `isspace`). -/
def cppIsSpace (c : Char) : Bool :=
  c == ' ' || c == '\t' || c == '\n' || c == '\x0b' || c == '\x0c' || c == '\r'

/-- Value of a list of decimal digit characters, accumulator style. -/
def digitsVal : List Char → Nat → Nat
  | [], acc => acc
  | c :: cs, acc => digitsVal cs (acc * 10 + (c.toNat - '0'.toNat))

/-- Core of unsigned extraction after the optional sign has been consumed:
`neg` records whether the field began with `-`. -/
def cppParseUnsignedCore (cs : List Char) (neg : Bool) : Option Nat :=
  if cs.takeWhile Char.isDigit = [] then none
  else if U64 ≤ digitsVal (cs.takeWhile Char.isDigit) 0 then none
  else if neg then some ((U64 - digitsVal (cs.takeWhile Char.isDigit) 0) % U64)
  else some (digitsVal (cs.takeWhile Char.isDigit) 0)

/-- Model of `std::stringstream >> (FileSizeT)`: the token-to-`size_t`
conversion used by `parseRanges`'s lambda. -/
def cppParseUnsigned (s : String) : Option Nat :=
  match s.data.dropWhile (fun c => cppIsSpace c) with
  | '-' :: r => cppParseUnsignedCore r true
  | '+' :: r => cppParseUnsignedCore r false
  | r => cppParseUnsignedCore r false

/-- Core of signed `int` extraction (32-bit range check, per `strtoll` plus
the `int` range test of `std::num_get`). -/
def cppParseIntCore (cs : List Char) (neg : Bool) : Option Int :=
  if cs.takeWhile Char.isDigit = [] then none
  else if neg then
    if digitsVal (cs.takeWhile Char.isDigit) 0 ≤ 2147483648 then
      some (-(digitsVal (cs.takeWhile Char.isDigit) 0 : Int))
    else none
  else
    if digitsVal (cs.takeWhile Char.isDigit) 0 ≤ 2147483647 then
      some ((digitsVal (cs.takeWhile Char.isDigit) 0 : Int))
    else none

/-- Model of `std::stringstream >> (int)`: used by `takeOneLine<int>` to read
the version from line 1. -/
def cppParseInt (s : String) : Option Int :=
  match s.data.dropWhile (fun c => cppIsSpace c) with
  | '-' :: r => cppParseIntCore r true
  | '+' :: r => cppParseIntCore r false
  | r => cppParseIntCore r false

/-! ## The `split` helper

The C++ `split(str, delimiter)` repeatedly calls `getline(ss, token, delim)`.
That yields every (possibly empty) token between delimiters, except that a
trailing delimiter does not produce a final empty token, and an empty input
yields no token at all. -/

/-- All fields of a character list separated by `d` (a trailing delimiter
produces a final empty field, like Lean's `String.split`). -/
def splitFields (d : Char) : List Char → List Char → List (List Char)
  | [], acc => [acc.reverse]
  | c :: cs, acc =>
    if c = d then acc.reverse :: splitFields d cs []
    else splitFields d cs (c :: acc)

/-- Model of the C++ `split`: every field, with the one trailing empty field
dropped (because a final `getline` at end of stream fails). -/
def cppSplit (s : String) (d : Char) : List String :=
  let ts := splitFields d s.data []
  let ts2 :=
    match ts.reverse with
    | [] :: r => r.reverse
    | _ => ts
  ts2.map String.mk

/-! ## Data model -/

/-- The `TransferList::Command` enum (`Erase = 0`, `New = 1`, `Zero = 2`). -/
inductive Command
  | Erase
  | New
  | Zero
deriving DecidableEq, Repr

/-- Underlying integral value of the enum, as used by `std::less<Command>`
inside the `std::multimap`. -/
def Command.val : Command → Nat
  | .Erase => 0
  | .New => 1
  | .Zero => 2

/-- The `TransferList::ByteSegments` record: a pair of block indices
(`_begin`, `_end`), both `size_t` values. -/
structure ByteSegments where
  begin : Nat
  «end» : Nat
deriving DecidableEq, Repr

/-- The `size()` accessor: `_end - _begin` in `size_t` arithmetic. -/
def ByteSegments.size (s : ByteSegments) : Nat := wrapSub s.«end» s.begin

/-- Structured counterpart of the exceptions thrown while parsing
(`TextFileError` carries the current line number via `TextFile::current()`;
`std::invalid_argument` from `parseRanges` / `toOperations` does not). -/
inductive ParseError
  | failedReadVersion (line : Nat)
  | unknownVersion (v : Int)
  | invalidRangeToken (tok : String)
  | lineAbort (cond : String) (line : Nat)
  | invalidOperation (cmd : String)
deriving DecidableEq, Repr

/-- The token-conversion stage of `parseRanges`: `std::transform` applies the
parsing lambda left to right and the first failing token throws
`std::invalid_argument` (modelled as `ParseError.invalidRangeToken`). -/
def parseRangeNums : List String → Except ParseError (List Nat)
  | [] => .ok []
  | t :: ts =>
    match cppParseUnsigned t with
    | none => .error (.invalidRangeToken t)
    | some n => (fun ns => n :: ns) <$> parseRangeNums ts

/-- Model of `parseRanges`.  After converting every comma-separated token, the
source checks `ret.size() != ret[0] + 1` (the `+ 1` in `size_t` arithmetic)
and `(ret.size() - 1) % 2 != 0`; on either mismatch it prints a diagnostic and
returns the empty vector, otherwise it drops the leading count.  The source
reads `ret[0]` without an emptiness guard (out of bounds when `src` is empty,
which no call site reaches); `headD 0` stands in for that access. -/
def parseRanges (src : String) : Except ParseError (List Nat) :=
  match parseRangeNums (cppSplit src ',') with
  | .error e => .error e
  | .ok ret =>
    if ret.length ≠ (ret.headD 0 + 1) % U64 then .ok []
    else if (ret.length - 1) % 2 ≠ 0 then .ok []
    else .ok ret.tail

/-- Model of `TransferList::toOperations` (exact, case-sensitive match). -/
def toOperations (command : String) : Except ParseError Command :=
  if command = "erase" then .ok .Erase
  else if command = "new" then .ok .New
  else if command = "zero" then .ok .Zero
  else .error (.invalidOperation command)

/-- The pairing loop of `TransferList::parse`:
`for (i = 0; i < nums.size(); i += 2) emplace(command, {nums[i], nums[i+1]})`.
Call sites only reach it with an even-length list. -/
def pairUp : List Nat → List ByteSegments
  | b :: e :: rest => ⟨b, e⟩ :: pairUp rest
  | _ => []

/-- One step of `std::multimap<Command, ByteSegments>::emplace`: the element
is inserted at the upper bound of its key, i.e. before the first entry whose
key is strictly greater, hence after every entry with an equal key
(C++11 guarantees this position for `insert`/`emplace` without a hint). -/
def mmInsert : List (Command × ByteSegments) → Command → ByteSegments →
    List (Command × ByteSegments)
  | [], k, v => [(k, v)]
  | (k0, v0) :: rest, k, v =>
    if k.val < k0.val then (k, v) :: (k0, v0) :: rest
    else (k0, v0) :: mmInsert rest k v

/-- The multimap contents after emplacing a list of operations in file order:
the state of `TransferList::commands` at the end of `parse`. -/
def buildCommands (ops : List (Command × ByteSegments)) :
    List (Command × ByteSegments) :=
  ops.foldl (fun acc p => mmInsert acc p.1 p.2) []

/-- The fully parsed `TransferList` object: the scheme `version` and the
multimap of commands in its iteration order. -/
structure TransferList where
  version : Int
  commands : List (Command × ByteSegments)
deriving DecidableEq, Repr

/-- The command-line loop of `TransferList::parse`.  `lineNum` is the
`TextFile` line number of the next line to be read; errors from
`ABORT_PARSING_IF` record the condition text and that line number, matching
`TextFileError`'s message.  Ranges of each line are appended in file order. -/
def parseCmdLines : Nat → List String → Except ParseError (List (Command × ByteSegments))
  | _, [] => .ok []
  | lineNum, line :: rest =>
    if (cppSplit line ' ').length ≠ 2 then .error (.lineAbort "split_line.size() != 2" lineNum)
    else
      match parseRanges ((cppSplit line ' ').getD 1 "") with
      | .error e => .error e
      | .ok nums =>
        if nums = [] then .error (.lineAbort "nums.empty()" lineNum)
        else
          match toOperations ((cppSplit line ' ').getD 0 "") with
          | .error e => .error e
          | .ok command =>
            match parseCmdLines (lineNum + 1) rest with
            | .error e => .error e
            | .ok ops => .ok ((pairUp nums).map (fun s => (command, s)) ++ ops)

/-- Model of `TransferList::parse` over the file's list of lines.  Line 1 is
the version (read with `takeOneLine<int>`); versions other than 1–4 throw.
Line 2 (the declared block count) is ignored, and for `version >= 2` two more
header lines are ignored, so the command loop starts at line 3 (version 1) or
line 5 (versions 2–4). -/
def TransferList.parse (lines : List String) : Except ParseError TransferList :=
  match lines with
  | [] => .error (.failedReadVersion 0)
  | vline :: rest =>
    match cppParseInt vline with
    | none => .error (.failedReadVersion 1)
    | some v =>
      if v = 1 ∨ v = 2 ∨ v = 3 ∨ v = 4 then
        match parseCmdLines (if 2 ≤ v then 5 else 3) (rest.drop (if 2 ≤ v then 3 else 1)) with
        | .error e => .error e
        | .ok ops => .ok ⟨v, buildCommands ops⟩
      else .error (.unknownVersion v)

/-- Model of `TransferList::max`: `std::max_element` over the multimap with
comparator `a.second.end() < b.second.end()`, then `->second.end()`.  On an
empty multimap the source dereferences the end iterator — undefined
behaviour, modelled as `none`. -/
def maxElementEnd : List (Command × ByteSegments) → Option Nat
  | [] => none
  | p :: rest =>
    some (rest.foldl (fun best q => if best < q.2.«end» then q.2.«end» else best) p.2.«end»)

/-- The `TransferList::max` member on the parsed object. -/
def TransferList.max (tl : TransferList) : Option Nat := maxElementEnd tl.commands

/-! ## Reconstruction (the replay in `main` and `ByteSegments::writeToFile`) -/

/-- The `system.new.dat` input: a byte list with the implicit sequential read
cursor of the `std::ifstream`. -/
structure DataStream where
  data : List Nat
  cursor : Nat
deriving DecidableEq, Repr

/-- Pad a byte list with zeros up to length `n` (the unread remainder of a
value-initialised `std::array<char, BLOCK_SIZE>` buffer is zero). -/
def padTo (n : Nat) (l : List Nat) : List Nat := l ++ List.replicate (n - l.length) 0

/-- Model of `seekp(pos)` followed by `write(bs)` on the output file: the file
is extended with zeros up to `pos` if needed, then `bs` overwrites the bytes
at `[pos, pos + bs.length)`. -/
def writeBytes (out : List Nat) (pos : Nat) (bs : List Nat) : List Nat :=
  (out ++ List.replicate (pos - out.length) 0).take pos ++ bs ++
    (out ++ List.replicate (pos - out.length) 0).drop (pos + bs.length)

/-- The `while (block_count > 0)` loop of `writeToFile`: each iteration reads
up to `BLOCK_SIZE` bytes into a zero-initialised buffer (a stream at end of
file yields nothing) and writes the full buffer at the current put position. -/
def writeLoop : Nat → Nat → DataStream → List Nat → DataStream × List Nat
  | 0, _, inp, out => (inp, out)
  | k + 1, pos, inp, out =>
    let buffer := padTo BLOCK_SIZE ((inp.data.drop inp.cursor).take BLOCK_SIZE)
    let inp2 : DataStream :=
      ⟨inp.data, inp.cursor + min BLOCK_SIZE (inp.data.length - inp.cursor)⟩
    writeLoop k (pos + BLOCK_SIZE) inp2 (writeBytes out pos buffer)

/-- Model of `ByteSegments::writeToFile`: `block_count = _end - _begin` in
`size_t` arithmetic, one `seekp(_begin * BLOCK_SIZE)` (`size_t` product), then
the block copy loop. -/
def ByteSegments.writeToFile (seg : ByteSegments) (inp : DataStream) (out : List Nat) :
    DataStream × List Nat :=
  writeLoop (wrapSub seg.«end» seg.begin) ((seg.begin * BLOCK_SIZE) % U64) inp out

/-- One step of the `forEachCommand` callback in `main`: `New` runs
`writeToFile`, every other command is skipped with a log line only. -/
def replayOne (st : DataStream × List Nat) (p : Command × ByteSegments) :
    DataStream × List Nat :=
  match p.1 with
  | Command.New => p.2.writeToFile st.1 st.2
  | _ => st

/-- The whole `forEachCommand` traversal of `main` over the multimap order. -/
def replay (ops : List (Command × ByteSegments)) (st : DataStream × List Nat) :
    DataStream × List Nat :=
  ops.foldl replayOne st

/-- Model of `std::filesystem::resize_file`: truncate or zero-extend to
exactly `n` bytes. -/
def resizeFile (out : List Nat) (n : Nat) : List Nat :=
  out.take n ++ List.replicate (n - out.length) 0

/-- The reconstruction phase of `main`: compute
`max_file_size = tlist.max() * BLOCK_SIZE` (a `size_t` product), replay every
command against a fresh output file, and finally resize the output to
`max_file_size`.  With an empty command multimap `tlist.max()` is undefined
behaviour in the source (`none` here). -/
def reconstruct (tl : TransferList) (dat : List Nat) : Option (List Nat) :=
  match tl.max with
  | none => none
  | some m =>
    let st := replay tl.commands (⟨dat, 0⟩, [])
    some (resizeFile st.2 ((m * BLOCK_SIZE) % U64))

/-- Specification-side maximum: the largest `range.end` over a list of
decoded operations (0 for the empty list). -/
def maxEndOf (ops : List (Command × ByteSegments)) : Nat :=
  (ops.map (fun p => p.2.«end»)).foldl max 0

/-! ## Lemmas about the output-file write primitive -/

theorem length_padTo (n : Nat) (l : List Nat) :
    (padTo n l).length = l.length + (n - l.length) := by
  simp only [padTo, List.length_append, List.length_replicate]

theorem padTo_of_length_eq {n : Nat} {l : List Nat} (h : l.length = n) : padTo n l = l := by
  simp [padTo, h]

theorem padTo_take_append (t : List Nat) (m n : Nat) (h : m ≤ t.length) :
    padTo m (t.take m) ++ padTo n ((t.drop m).take n) = padTo (m + n) (t.take (m + n)) := by
  have h1 : (t.take m).length = m := List.length_take_of_le h
  rw [padTo_of_length_eq h1, List.take_add]
  simp only [padTo, List.append_assoc, List.length_append, h1]
  congr 3
  omega

theorem padTo_take_append_short (t : List Nat) (m n : Nat) (h : t.length ≤ m) :
    padTo m (t.take m) ++ List.replicate n 0 = padTo (m + n) (t.take (m + n)) := by
  rw [List.take_of_length_le h, List.take_of_length_le (le_trans h (Nat.le_add_right m n))]
  simp only [padTo, List.append_assoc]
  rw [← List.replicate_add]
  congr 2
  omega

theorem length_writeBytes (out : List Nat) (pos : Nat) (bs : List Nat) :
    (writeBytes out pos bs).length
      = pos + bs.length + (out.length - (pos + bs.length)) := by
  simp only [writeBytes, List.length_append, List.length_take, List.length_drop,
    List.length_replicate]
  omega

theorem writeBytes_append (out : List Nat) (pos : Nat) (a b : List Nat) :
    writeBytes out pos (a ++ b) = writeBytes (writeBytes out pos a) (pos + a.length) b := by
  have hlen : pos + a.length ≤ (writeBytes out pos a).length := by
    rw [length_writeBytes]; omega
  have hz : (pos + a.length) - (writeBytes out pos a).length = 0 := Nat.sub_eq_zero_of_le hlen
  have htake : ((out ++ List.replicate (pos - out.length) 0).take pos).length = pos := by
    simp only [List.length_take, List.length_append, List.length_replicate]
    omega
  have htake2 :
      ((out ++ List.replicate (pos - out.length) 0).take pos ++ a).length = pos + a.length := by
    rw [List.length_append, htake]
  conv_rhs => rw [writeBytes]
  rw [hz, List.replicate_zero, List.append_nil]
  show _ = (writeBytes out pos a).take (pos + a.length) ++ b ++
      (writeBytes out pos a).drop (pos + a.length + b.length)
  have hsplit : writeBytes out pos a
      = ((out ++ List.replicate (pos - out.length) 0).take pos ++ a) ++
        (out ++ List.replicate (pos - out.length) 0).drop (pos + a.length) := by
    rw [writeBytes]
  rw [hsplit, List.take_left' htake2]
  have hdrop :
      (((out ++ List.replicate (pos - out.length) 0).take pos ++ a) ++
          (out ++ List.replicate (pos - out.length) 0).drop (pos + a.length)).drop
        (pos + a.length + b.length)
      = (out ++ List.replicate (pos - out.length) 0).drop (pos + a.length + b.length) := by
    have h1 : pos + a.length + b.length
        = ((out ++ List.replicate (pos - out.length) 0).take pos ++ a).length + b.length := by
      rw [htake2]
    rw [h1, List.drop_append, List.drop_drop, htake2]
  rw [hdrop, writeBytes, List.length_append]
  simp [List.append_assoc, Nat.add_assoc]

theorem writeLoop_succ_spec :
    ∀ (k pos : Nat) (data : List Nat) (cur : Nat) (out : List Nat),
      cur ≤ data.length →
      writeLoop (k + 1) pos ⟨data, cur⟩ out
        = (⟨data, min (cur + BLOCK_SIZE * (k + 1)) data.length⟩,
           writeBytes out pos (padTo (BLOCK_SIZE * (k + 1))
             ((data.drop cur).take (BLOCK_SIZE * (k + 1))))) := by
  intro k
  induction k with
  | zero =>
    intro pos data cur out hcur
    rw [writeLoop, writeLoop]
    dsimp only
    simp only [Nat.zero_add, Nat.mul_one]
    have hc : cur + min BLOCK_SIZE (data.length - cur)
        = min (cur + BLOCK_SIZE) data.length := by
      omega
    rw [hc]
  | succ k ih =>
    intro pos data cur out hcur
    rw [writeLoop]
    dsimp only
    have hcur2 : cur + min BLOCK_SIZE (data.length - cur) ≤ data.length := by
      simp only [BLOCK_SIZE]
      omega
    rw [ih (pos + BLOCK_SIZE) data _ _ hcur2]
    have hbuf : (padTo BLOCK_SIZE ((data.drop cur).take BLOCK_SIZE)).length = BLOCK_SIZE := by
      simp only [padTo, List.length_append, List.length_replicate, List.length_take,
        List.length_drop]
      omega
    have hcomp :
        writeBytes out pos (padTo BLOCK_SIZE ((data.drop cur).take BLOCK_SIZE) ++
            padTo (BLOCK_SIZE * (k + 1))
              ((data.drop (cur + min BLOCK_SIZE (data.length - cur))).take
                (BLOCK_SIZE * (k + 1))))
          = writeBytes
              (writeBytes out pos (padTo BLOCK_SIZE ((data.drop cur).take BLOCK_SIZE)))
              (pos + BLOCK_SIZE)
              (padTo (BLOCK_SIZE * (k + 1))
                ((data.drop (cur + min BLOCK_SIZE (data.length - cur))).take
                  (BLOCK_SIZE * (k + 1)))) := by
      rw [writeBytes_append, hbuf]
    rw [← hcomp]
    have hcur_eq : min (cur + min BLOCK_SIZE (data.length - cur) + BLOCK_SIZE * (k + 1))
        data.length = min (cur + BLOCK_SIZE * (k + 1 + 1)) data.length := by
      simp only [BLOCK_SIZE]
      omega
    rw [hcur_eq]
    have hbytes : padTo BLOCK_SIZE ((data.drop cur).take BLOCK_SIZE) ++
        padTo (BLOCK_SIZE * (k + 1))
          ((data.drop (cur + min BLOCK_SIZE (data.length - cur))).take (BLOCK_SIZE * (k + 1)))
        = padTo (BLOCK_SIZE * (k + 1 + 1)) ((data.drop cur).take (BLOCK_SIZE * (k + 1 + 1))) := by
      have hsplit : BLOCK_SIZE * (k + 1 + 1) = BLOCK_SIZE + BLOCK_SIZE * (k + 1) := by
        simp only [BLOCK_SIZE]
        omega
      by_cases hc : BLOCK_SIZE ≤ data.length - cur
      · -- a full block is available: the buffer is exactly the next BLOCK_SIZE bytes
        have hmin : cur + min BLOCK_SIZE (data.length - cur) = cur + BLOCK_SIZE := by
          omega
        have hdd : data.drop (cur + BLOCK_SIZE) = (data.drop cur).drop BLOCK_SIZE := by
          rw [List.drop_drop]
        rw [hmin, hdd, hsplit]
        exact padTo_take_append (data.drop cur) BLOCK_SIZE (BLOCK_SIZE * (k + 1))
          (by simp only [List.length_drop]; omega)
      · -- the stream runs dry inside this block: everything after is zero fill
        have hcur3 : cur + min BLOCK_SIZE (data.length - cur) = data.length := by
          omega
        rw [hcur3, List.drop_length, List.take_nil, hsplit]
        have hpadnil : padTo (BLOCK_SIZE * (k + 1)) ([] : List Nat)
            = List.replicate (BLOCK_SIZE * (k + 1)) 0 := by
          simp [padTo]
        rw [hpadnil]
        exact padTo_take_append_short (data.drop cur) BLOCK_SIZE (BLOCK_SIZE * (k + 1))
          (by simp only [List.length_drop]; omega)
    rw [hbytes]

/-- Full characterisation of `ByteSegments::writeToFile` for a non-empty
range whose byte offsets stay below `2 ^ 64`: the cursor advances by up to
`size * BLOCK_SIZE` bytes (capped at end of stream) and the output receives,
at byte offset `begin * BLOCK_SIZE`, the next `size * BLOCK_SIZE` stream
bytes zero-padded to that length. -/
theorem writeToFile_spec (seg : ByteSegments) (data : List Nat) (cur : Nat) (out : List Nat)
    (h0 : cur ≤ data.length) (h1 : seg.begin < seg.«end»)
    (h2 : seg.«end» * BLOCK_SIZE < U64) :
    seg.writeToFile ⟨data, cur⟩ out
      = (⟨data, min (cur + (seg.«end» - seg.begin) * BLOCK_SIZE) data.length⟩,
         writeBytes out (seg.begin * BLOCK_SIZE)
           (padTo ((seg.«end» - seg.begin) * BLOCK_SIZE)
             ((data.drop cur).take ((seg.«end» - seg.begin) * BLOCK_SIZE)))) := by
  have hBpos : 0 < BLOCK_SIZE := by decide
  have hendU : seg.«end» < U64 := by
    have h3 : seg.«end» * 1 ≤ seg.«end» * BLOCK_SIZE := Nat.mul_le_mul_left _ hBpos
    omega
  have hbeginB : seg.begin * BLOCK_SIZE < U64 :=
    lt_of_le_of_lt (Nat.mul_le_mul_right _ h1.le) h2
  have hwrap : wrapSub seg.«end» seg.begin = seg.«end» - seg.begin := by
    unfold wrapSub
    have h3 : seg.«end» + U64 - seg.begin = U64 + (seg.«end» - seg.begin) := by omega
    rw [h3, Nat.add_mod_left, Nat.mod_eq_of_lt (by omega)]
  have hmod : (seg.begin * BLOCK_SIZE) % U64 = seg.begin * BLOCK_SIZE :=
    Nat.mod_eq_of_lt hbeginB
  obtain ⟨k, hk⟩ : ∃ k, seg.«end» - seg.begin = k + 1 :=
    ⟨seg.«end» - seg.begin - 1, by omega⟩
  rw [ByteSegments.writeToFile, hwrap, hmod, hk,
    writeLoop_succ_spec k _ data cur out h0, Nat.mul_comm BLOCK_SIZE (k + 1)]

/-! ## Lemmas about the multimap of commands -/

theorem mem_mmInsert {l : List (Command × ByteSegments)} {k : Command} {v : ByteSegments}
    {q : Command × ByteSegments} :
    q ∈ mmInsert l k v ↔ q = (k, v) ∨ q ∈ l := by
  induction l with
  | nil => simp [mmInsert]
  | cons p rest ih =>
    obtain ⟨k0, v0⟩ := p
    by_cases h : k.val < k0.val
    · simp [mmInsert, h]
    · simp only [mmInsert, h, if_false, List.mem_cons, ih]
      tauto

theorem mmInsert_pairwise {l : List (Command × ByteSegments)} {k : Command} {v : ByteSegments}
    (h : l.Pairwise (fun p q => p.1.val ≤ q.1.val)) :
    (mmInsert l k v).Pairwise (fun p q => p.1.val ≤ q.1.val) := by
  induction l with
  | nil => simp [mmInsert]
  | cons p rest ih =>
    obtain ⟨k0, v0⟩ := p
    rw [List.pairwise_cons] at h
    obtain ⟨h0, h1⟩ := h
    by_cases hlt : k.val < k0.val
    · rw [mmInsert, if_pos hlt, List.pairwise_cons]
      refine ⟨?_, List.pairwise_cons.mpr ⟨h0, h1⟩⟩
      intro q hq
      rcases List.mem_cons.mp hq with h' | h'
      · subst h'; exact hlt.le
      · exact le_trans hlt.le (h0 q h')
    · rw [mmInsert, if_neg hlt, List.pairwise_cons]
      refine ⟨?_, ih h1⟩
      intro q hq
      rcases mem_mmInsert.mp hq with h' | h'
      · subst h'
        dsimp only
        omega
      · exact h0 q h'

theorem mmInsert_filter_self {l : List (Command × ByteSegments)} {k : Command}
    {v : ByteSegments} (h : l.Pairwise (fun p q => p.1.val ≤ q.1.val)) :
    (mmInsert l k v).filter (fun p => p.1 == k)
      = l.filter (fun p => p.1 == k) ++ [(k, v)] := by
  induction l with
  | nil => simp [mmInsert]
  | cons p rest ih =>
    obtain ⟨k0, v0⟩ := p
    rw [List.pairwise_cons] at h
    obtain ⟨h0, h1⟩ := h
    by_cases hlt : k.val < k0.val
    · rw [mmInsert, if_pos hlt]
      have hfil : ((k0, v0) :: rest).filter (fun p => p.1 == k) = [] := by
        rw [List.filter_eq_nil_iff]
        intro q hq
        have hge : k0.val ≤ q.1.val := by
          rcases List.mem_cons.mp hq with h' | h'
          · subst h'
            exact le_refl _
          · exact h0 q h'
        simp only [beq_iff_eq]
        intro he
        rw [he] at hge
        omega
      rw [List.filter_cons_of_pos (by simp), hfil]
      simp
    · rw [mmInsert, if_neg hlt]
      by_cases he : k0 = k
      · rw [List.filter_cons_of_pos (by simp [he]), List.filter_cons_of_pos (by simp [he]),
          ih h1]
        simp
      · rw [List.filter_cons_of_neg (by simp [he]), List.filter_cons_of_neg (by simp [he]),
          ih h1]

theorem mmInsert_filter_other {l : List (Command × ByteSegments)} {k : Command}
    {v : ByteSegments} {c : Command} (hne : c ≠ k) :
    (mmInsert l k v).filter (fun p => p.1 == c) = l.filter (fun p => p.1 == c) := by
  induction l with
  | nil => simp [mmInsert, Ne.symm hne]
  | cons p rest ih =>
    obtain ⟨k0, v0⟩ := p
    by_cases hlt : k.val < k0.val
    · rw [mmInsert, if_pos hlt, List.filter_cons_of_neg (by simp [Ne.symm hne])]
    · rw [mmInsert, if_neg hlt]
      by_cases he : k0 = c
      · rw [List.filter_cons_of_pos (by simp [he]), List.filter_cons_of_pos (by simp [he]), ih]
      · rw [List.filter_cons_of_neg (by simp [he]), List.filter_cons_of_neg (by simp [he]), ih]

theorem foldl_mmInsert_filter (c : Command) :
    ∀ (ops acc : List (Command × ByteSegments)),
      acc.Pairwise (fun p q => p.1.val ≤ q.1.val) →
      (ops.foldl (fun acc p => mmInsert acc p.1 p.2) acc).filter (fun p => p.1 == c)
        = acc.filter (fun p => p.1 == c) ++ ops.filter (fun p => p.1 == c) := by
  intro ops
  induction ops with
  | nil =>
    intro acc _
    simp
  | cons p rest ih =>
    intro acc hacc
    obtain ⟨k, v⟩ := p
    rw [List.foldl_cons]
    rw [ih _ (mmInsert_pairwise hacc)]
    by_cases he : k = c
    · subst he
      rw [mmInsert_filter_self hacc, List.filter_cons_of_pos (by simp)]
      simp
    · rw [mmInsert_filter_other (Ne.symm he), List.filter_cons_of_neg (by simp [he])]

theorem buildCommands_filter (c : Command) (ops : List (Command × ByteSegments)) :
    (buildCommands ops).filter (fun p => p.1 == c) = ops.filter (fun p => p.1 == c) := by
  rw [buildCommands, foldl_mmInsert_filter c ops [] List.Pairwise.nil, List.filter_nil,
    List.nil_append]

theorem mem_foldl_mmInsert :
    ∀ (ops acc : List (Command × ByteSegments)) (p : Command × ByteSegments),
      p ∈ ops.foldl (fun acc q => mmInsert acc q.1 q.2) acc → p ∈ acc ∨ p ∈ ops := by
  intro ops
  induction ops with
  | nil =>
    intro acc p h
    exact Or.inl h
  | cons q rest ih =>
    intro acc p h
    rw [List.foldl_cons] at h
    rcases ih _ p h with h' | h'
    · rcases mem_mmInsert.mp h' with h'' | h''
      · right
        rw [List.mem_cons]
        left
        exact h''
      · exact Or.inl h''
    · right
      exact List.mem_cons_of_mem _ h'

theorem mem_buildCommands {ops : List (Command × ByteSegments)} {p : Command × ByteSegments}
    (h : p ∈ buildCommands ops) : p ∈ ops := by
  rcases mem_foldl_mmInsert ops [] p h with h' | h'
  · cases h'
  · exact h'

/-! ## Lemmas about `TransferList::max` -/

theorem foldl_best_eq_max :
    ∀ (rest : List (Command × ByteSegments)) (b : Nat),
      rest.foldl (fun best q => if best < q.2.«end» then q.2.«end» else best) b
        = (rest.map (fun p => p.2.«end»)).foldl max b := by
  intro rest
  induction rest with
  | nil =>
    intro b
    rfl
  | cons p l ih =>
    intro b
    rw [List.foldl_cons, List.map_cons, List.foldl_cons, ih]
    have hmax : (if b < p.2.«end» then p.2.«end» else b) = max b p.2.«end» := by
      split <;> omega
    rw [hmax]

theorem maxElementEnd_eq {l : List (Command × ByteSegments)} (h : l ≠ []) :
    maxElementEnd l = some (maxEndOf l) := by
  cases l with
  | nil => exact absurd rfl h
  | cons p rest =>
    rw [maxElementEnd, foldl_best_eq_max, maxEndOf, List.map_cons, List.foldl_cons]
    have hz : max 0 p.2.«end» = p.2.«end» := by omega
    rw [hz]

theorem length_resizeFile (out : List Nat) (n : Nat) : (resizeFile out n).length = n := by
  simp only [resizeFile, List.length_append, List.length_take, List.length_replicate]
  omega

/-! ## Lemmas about range-token parsing -/

theorem cppParseUnsignedCore_lt {cs : List Char} {neg : Bool} {n : Nat}
    (h : cppParseUnsignedCore cs neg = some n) : n < U64 := by
  have hU : 0 < U64 := by decide
  rw [cppParseUnsignedCore] at h
  split at h
  · cases h
  · split at h
    · cases h
    · split at h
      · cases h
        exact Nat.mod_lt _ hU
      · cases h
        omega

theorem cppParseUnsigned_lt {s : String} {n : Nat} (h : cppParseUnsigned s = some n) :
    n < U64 := by
  rw [cppParseUnsigned] at h
  split at h <;> exact cppParseUnsignedCore_lt h

theorem parseRangeNums_ok_lt :
    ∀ {ts : List String} {ns : List Nat}, parseRangeNums ts = .ok ns → ∀ n ∈ ns, n < U64 := by
  intro ts
  induction ts with
  | nil =>
    intro ns h n hn
    rw [parseRangeNums] at h
    cases h
    cases hn
  | cons t ts ih =>
    intro ns h n hn
    rw [parseRangeNums] at h
    cases hcp : cppParseUnsigned t with
    | none =>
      rw [hcp] at h
      cases h
    | some m =>
      rw [hcp] at h
      cases hrec : parseRangeNums ts with
      | error e =>
        rw [hrec] at h
        cases h
      | ok ns' =>
        rw [hrec] at h
        cases h
        rcases List.mem_cons.mp hn with h' | h'
        · subst h'
          exact cppParseUnsigned_lt hcp
        · exact ih hrec n h'

theorem parseRangeNums_error_of_mem :
    ∀ {ts : List String} (t : String), t ∈ ts → cppParseUnsigned t = none →
      ∃ t0, t0 ∈ ts ∧ cppParseUnsigned t0 = none ∧
        parseRangeNums ts = .error (.invalidRangeToken t0) := by
  intro ts
  induction ts with
  | nil =>
    intro t ht _
    cases ht
  | cons t1 ts ih =>
    intro t ht hnone
    cases hcp : cppParseUnsigned t1 with
    | none =>
      refine ⟨t1, List.mem_cons_self t1 ts, hcp, ?_⟩
      rw [parseRangeNums, hcp]
    | some m =>
      have ht' : t ∈ ts := by
        rcases List.mem_cons.mp ht with h' | h'
        · subst h'
          rw [hcp] at hnone
          cases hnone
        · exact h'
      obtain ⟨t0, ht0, hn0, herr⟩ := ih t ht' hnone
      refine ⟨t0, List.mem_cons_of_mem _ ht0, hn0, ?_⟩
      rw [parseRangeNums, hcp, herr]
      rfl

theorem parseRanges_ok_lt {src : String} {ns : List Nat}
    (h : parseRanges src = .ok ns) : ∀ n ∈ ns, n < U64 := by
  intro n hn
  rw [parseRanges] at h
  cases hrn : parseRangeNums (cppSplit src ',') with
  | error e =>
    rw [hrn] at h
    cases h
  | ok ret =>
    rw [hrn] at h
    dsimp only at h
    by_cases h1 : ret.length ≠ (ret.headD 0 + 1) % U64
    · rw [if_pos h1] at h
      cases h
      cases hn
    · rw [if_neg h1] at h
      by_cases h2 : (ret.length - 1) % 2 ≠ 0
      · rw [if_pos h2] at h
        cases h
        cases hn
      · rw [if_neg h2] at h
        cases h
        exact parseRangeNums_ok_lt hrn n (List.mem_of_mem_tail hn)

theorem pairUp_mem :
    ∀ (l : List Nat) (s : ByteSegments), s ∈ pairUp l → s.begin ∈ l ∧ s.«end» ∈ l := by
  intro l
  induction l using pairUp.induct with
  | case1 b e rest ih =>
    intro s h
    rw [pairUp] at h
    rcases List.mem_cons.mp h with h' | h'
    · subst h'
      exact ⟨List.mem_cons_self _ _, List.mem_cons_of_mem _ (List.mem_cons_self _ _)⟩
    · obtain ⟨hb, he⟩ := ih s h'
      exact ⟨List.mem_cons_of_mem _ (List.mem_cons_of_mem _ hb),
        List.mem_cons_of_mem _ (List.mem_cons_of_mem _ he)⟩
  | case2 l hne =>
    intro s h
    have hl : pairUp l = [] := by
      cases l with
      | nil => rfl
      | cons b l' =>
        cases l' with
        | nil => rfl
        | cons e rest => exact absurd rfl (hne b e rest)
    rw [hl] at h
    cases h

theorem parseCmdLines_ok_lt :
    ∀ (ls : List String) (lineNum : Nat) (ops : List (Command × ByteSegments)),
      parseCmdLines lineNum ls = .ok ops →
      ∀ p ∈ ops, p.2.begin < U64 ∧ p.2.«end» < U64 := by
  intro ls
  induction ls with
  | nil =>
    intro lineNum ops h p hp
    rw [parseCmdLines] at h
    cases h
    cases hp
  | cons line rest ih =>
    intro lineNum ops h p hp
    rw [parseCmdLines] at h
    by_cases hsl : (cppSplit line ' ').length ≠ 2
    · rw [if_pos hsl] at h
      cases h
    · rw [if_neg hsl] at h
      cases hpr : parseRanges ((cppSplit line ' ').getD 1 "") with
      | error e =>
        rw [hpr] at h
        cases h
      | ok nums =>
        rw [hpr] at h
        dsimp only at h
        by_cases hnil : nums = []
        · rw [if_pos hnil] at h
          cases h
        · rw [if_neg hnil] at h
          cases hto : toOperations ((cppSplit line ' ').getD 0 "") with
          | error e =>
            rw [hto] at h
            cases h
          | ok command =>
            rw [hto] at h
            dsimp only at h
            cases hrec : parseCmdLines (lineNum + 1) rest with
            | error e =>
              rw [hrec] at h
              cases h
            | ok ops' =>
              rw [hrec] at h
              dsimp only at h
              cases h
              rcases List.mem_append.mp hp with h' | h'
              · obtain ⟨s, hs, hps⟩ := List.mem_map.mp h'
                obtain ⟨hb, he⟩ := pairUp_mem nums s hs
                rw [← hps]
                exact ⟨parseRanges_ok_lt hpr _ hb, parseRanges_ok_lt hpr _ he⟩
              · exact ih (lineNum + 1) ops' hrec p h'

/-! ## Claim theorems -/

/-- C1: for every valid transfer list, after decoding and replaying all
operations the output image's final length in bytes equals `BLOCK_SIZE` times
the maximum range end over all decoded operations of every kind, established
by the final `resize_file` regardless of where the last write ended (the
conclusion holds for an arbitrary data stream `dat`). -/
theorem c1_output_length (lines : List String) (tl : TransferList) (dat : List Nat)
    (hparse : TransferList.parse lines = .ok tl)
    (hne : tl.commands ≠ [])
    (hfits : maxEndOf tl.commands * BLOCK_SIZE < U64) :
    ∃ out, reconstruct tl dat = some out ∧
      out.length = BLOCK_SIZE * maxEndOf tl.commands := by
  rw [reconstruct, TransferList.max, maxElementEnd_eq hne]
  dsimp only
  refine ⟨_, rfl, ?_⟩
  rw [length_resizeFile, Nat.mod_eq_of_lt hfits, Nat.mul_comm]

/-- Witness for C1: a version-4 transfer list with a single `zero 2,0,2`
command reconstructs (from an empty data stream) to exactly `2 * 4096` bytes. -/
theorem c1_witness :
    TransferList.parse ["4", "2", "x", "y", "zero 2,0,2"]
        = .ok ⟨4, [(Command.Zero, ⟨0, 2⟩)]⟩ ∧
    ∃ out, reconstruct ⟨4, [(Command.Zero, ⟨0, 2⟩)]⟩ [] = some out ∧
      out.length = BLOCK_SIZE * maxEndOf [(Command.Zero, ⟨0, 2⟩)] :=
  ⟨by decide,
   c1_output_length ["4", "2", "x", "y", "zero 2,0,2"] ⟨4, [(Command.Zero, ⟨0, 2⟩)]⟩ []
     (by decide) (by decide) (by decide)⟩

/-- C2: replaying a `New` operation seeks the output to byte offset
`begin * BLOCK_SIZE` and writes exactly `(end - begin) * BLOCK_SIZE` bytes
taken sequentially from the data stream's cursor (first conjunct, for a
non-empty in-range operation with enough stream data); and the multimap
visits `New` operations in the same relative order as they were emplaced,
i.e. as their lines appeared in the transfer-list file (second conjunct). -/
theorem c2_new_write_and_order :
    (∀ (seg : ByteSegments) (data : List Nat) (cur : Nat) (out : List Nat),
      cur ≤ data.length →
      seg.begin < seg.«end» →
      seg.«end» * BLOCK_SIZE < U64 →
      cur + (seg.«end» - seg.begin) * BLOCK_SIZE ≤ data.length →
      seg.writeToFile ⟨data, cur⟩ out
        = (⟨data, cur + (seg.«end» - seg.begin) * BLOCK_SIZE⟩,
           writeBytes out (seg.begin * BLOCK_SIZE)
             ((data.drop cur).take ((seg.«end» - seg.begin) * BLOCK_SIZE)))) ∧
    (∀ ops : List (Command × ByteSegments),
      (buildCommands ops).filter (fun p => p.1 == Command.New)
        = ops.filter (fun p => p.1 == Command.New)) := by
  constructor
  · intro seg data cur out h0 h1 h2 h3
    rw [writeToFile_spec seg data cur out h0 h1 h2]
    set n := (seg.«end» - seg.begin) * BLOCK_SIZE with hn
    have hmin : min (cur + n) data.length = cur + n := by omega
    have hpad : padTo n ((data.drop cur).take n) = (data.drop cur).take n := by
      apply padTo_of_length_eq
      rw [List.length_take, List.length_drop]
      omega
    rw [hmin, hpad]
  · intro ops
    exact buildCommands_filter Command.New ops

/-- Witness for C2: a one-block `New` range `[0,1)` against a 4096-byte
stream, and a command list where two `New` ranges keep their file order
around a `Zero` line. -/
theorem c2_witness :
    ((0 ≤ (List.replicate 4096 9 : List Nat).length ∧
      (ByteSegments.mk 0 1).begin < (ByteSegments.mk 0 1).«end» ∧
      (ByteSegments.mk 0 1).«end» * BLOCK_SIZE < U64 ∧
      0 + ((ByteSegments.mk 0 1).«end» - (ByteSegments.mk 0 1).begin) * BLOCK_SIZE
        ≤ (List.replicate 4096 9 : List Nat).length) ∧
    (ByteSegments.mk 0 1).writeToFile ⟨List.replicate 4096 9, 0⟩ []
      = (⟨List.replicate 4096 9,
          0 + ((ByteSegments.mk 0 1).«end» - (ByteSegments.mk 0 1).begin) * BLOCK_SIZE⟩,
         writeBytes [] ((ByteSegments.mk 0 1).begin * BLOCK_SIZE)
           (((List.replicate 4096 9 : List Nat).drop 0).take
             (((ByteSegments.mk 0 1).«end» - (ByteSegments.mk 0 1).begin) * BLOCK_SIZE)))) ∧
    (buildCommands
        [(Command.New, ⟨1, 2⟩), (Command.Zero, ⟨0, 1⟩), (Command.New, ⟨0, 1⟩)]).filter
        (fun p => p.1 == Command.New)
      = [(Command.New, ⟨1, 2⟩), (Command.Zero, ⟨0, 1⟩), (Command.New, ⟨0, 1⟩)].filter
          (fun p => p.1 == Command.New) :=
  ⟨⟨⟨Nat.zero_le _, by decide, by decide, by rw [List.length_replicate]; decide⟩,
    c2_new_write_and_order.1 ⟨0, 1⟩ (List.replicate 4096 9) 0 [] (Nat.zero_le _) (by decide)
      (by decide) (by rw [List.length_replicate]; decide)⟩,
   c2_new_write_and_order.2 [(Command.New, ⟨1, 2⟩), (Command.Zero, ⟨0, 1⟩),
     (Command.New, ⟨0, 1⟩)]⟩

/-- C3 counterexample: the decoder does not enforce `end > begin`.  The line
`new 2,5,5` decodes successfully into the empty range `[5,5)`. -/
theorem c3_counterexample :
    TransferList.parse ["4", "0", "0", "0", "new 2,5,5"]
        = .ok ⟨4, [(Command.New, ⟨5, 5⟩)]⟩ ∧
    ¬ ((ByteSegments.mk 5 5).begin < (ByteSegments.mk 5 5).«end») := by
  constructor
  · decide
  · decide

/-- C3 (amended): the decoder places no constraint between `begin` and `end`
of a produced range (pairs with `end = begin` or `end < begin` are accepted
as-is); the invariant that does hold is that every produced bound is a
`size_t` value, i.e. strictly below `2 ^ 64`. -/
theorem c3_amended (lines : List String) (tl : TransferList)
    (h : TransferList.parse lines = .ok tl) :
    ∀ p ∈ tl.commands, p.2.begin < U64 ∧ p.2.«end» < U64 := by
  cases lines with
  | nil =>
    rw [TransferList.parse] at h
    cases h
  | cons vline rest =>
    rw [TransferList.parse] at h
    cases hv : cppParseInt vline with
    | none =>
      rw [hv] at h
      cases h
    | some v =>
      rw [hv] at h
      dsimp only at h
      by_cases hver : v = 1 ∨ v = 2 ∨ v = 3 ∨ v = 4
      · rw [if_pos hver] at h
        cases hpc : parseCmdLines (if 2 ≤ v then 5 else 3)
            (rest.drop (if 2 ≤ v then 3 else 1)) with
        | error e =>
          rw [hpc] at h
          cases h
        | ok ops =>
          rw [hpc] at h
          dsimp only at h
          cases h
          intro p hp
          exact parseCmdLines_ok_lt _ _ _ hpc p (mem_buildCommands hp)
      · rw [if_neg hver] at h
        cases h

/-- Witness for C3 (amended): the inverted range `new 2,5,3` is accepted
as-is and its bounds are below `2 ^ 64`. -/
theorem c3_amended_witness :
    TransferList.parse ["4", "0", "0", "0", "new 2,5,3"]
        = .ok ⟨4, [(Command.New, ⟨5, 3⟩)]⟩ ∧
    (∀ p ∈ (TransferList.mk 4 [(Command.New, ⟨5, 3⟩)]).commands,
      p.2.begin < U64 ∧ p.2.«end» < U64) :=
  ⟨by decide, c3_amended ["4", "0", "0", "0", "new 2,5,3"] ⟨4, [(Command.New, ⟨5, 3⟩)]⟩
    (by decide)⟩

/-- C4: a transfer list with zero operations parses successfully, and the
sizing step `TransferList::max` then has no element to return: the source
dereferences `std::max_element`'s end iterator (undefined behaviour, `none`
in this model) instead of raising the fatal error the claim requires. -/
theorem c4_empty_commands :
    TransferList.parse ["4", "0", "0", "0"] = .ok ⟨4, []⟩ ∧
    TransferList.max ⟨4, []⟩ = none ∧
    reconstruct ⟨4, []⟩ [] = none := by
  refine ⟨by decide, rfl, rfl⟩

/-- C5 counterexample: the token `-1` does not make decoding fail.  C++
stream extraction into `size_t` wraps it to `2 ^ 64 - 1`, so the line
`new 2,0,-1` produces an operation. -/
theorem c5_counterexample :
    parseRanges "2,0,-1" = .ok [0, 18446744073709551615] ∧
    parseCmdLines 5 ["new 2,0,-1"]
      = .ok [(Command.New, ⟨0, 18446744073709551615⟩)] := by
  constructor
  · decide
  · decide

/-- C5 (amended): a range-spec token on which `size_t` stream extraction
fails (no digits after the optional sign, e.g. a non-numeric or empty token)
makes decoding throw, naming a failing token, and no operation is produced
from the line; negative tokens such as `-1` are not extraction failures —
they wrap modulo `2 ^ 64` and are accepted. -/
theorem c5_amended (line w src : String) (lineNum : Nat) (rest : List String) (t : String)
    (hsplit : cppSplit line ' ' = [w, src])
    (hmem : t ∈ cppSplit src ',')
    (hfail : cppParseUnsigned t = none) :
    ∃ t0, t0 ∈ cppSplit src ',' ∧ cppParseUnsigned t0 = none ∧
      parseRanges src = .error (.invalidRangeToken t0) ∧
      parseCmdLines lineNum (line :: rest) = .error (.invalidRangeToken t0) := by
  obtain ⟨t0, ht0, hn0, herr⟩ := parseRangeNums_error_of_mem t hmem hfail
  have hpr : parseRanges src = .error (.invalidRangeToken t0) := by
    rw [parseRanges, herr]
  refine ⟨t0, ht0, hn0, hpr, ?_⟩
  rw [parseCmdLines, hsplit, if_neg (by simp)]
  have hg : ([w, src].getD 1 "") = src := rfl
  rw [hg, hpr]

/-- Witness for C5 (amended): the line `new 2,a,1` fails with an
`invalid_argument` naming the token `a`. -/
theorem c5_amended_witness :
    cppSplit "new 2,a,1" ' ' = ["new", "2,a,1"] ∧
    "a" ∈ cppSplit "2,a,1" ',' ∧
    cppParseUnsigned "a" = none ∧
    ∃ t0, t0 ∈ cppSplit "2,a,1" ',' ∧ cppParseUnsigned t0 = none ∧
      parseRanges "2,a,1" = .error (.invalidRangeToken t0) ∧
      parseCmdLines 5 ["new 2,a,1"] = .error (.invalidRangeToken t0) :=
  ⟨by decide, by decide, by decide,
   c5_amended "new 2,a,1" "new" "2,a,1" 5 [] "a" (by decide) (by decide) (by decide)⟩

/-- C6: a rangeset whose total integer count differs from `N + 1` (with `N`
the leading count, in `size_t` arithmetic) or whose leading count is odd
makes the command line fail fatally with `ABORT_PARSING_IF(nums.empty())`,
identifying the offending line by its number. -/
theorem c6_rangeset_validation (line w src : String) (ns : List Nat) (lineNum : Nat)
    (rest : List String)
    (hsplit : cppSplit line ' ' = [w, src])
    (hnums : parseRangeNums (cppSplit src ',') = .ok ns)
    (hne : ns ≠ [])
    (hbad : ns.length ≠ (ns.headD 0 + 1) % U64 ∨ (ns.length - 1) % 2 ≠ 0) :
    parseCmdLines lineNum (line :: rest) = .error (.lineAbort "nums.empty()" lineNum) := by
  have hpr : parseRanges src = .ok [] := by
    rw [parseRanges, hnums]
    dsimp only
    by_cases h1 : ns.length ≠ (ns.headD 0 + 1) % U64
    · rw [if_pos h1]
    · rw [if_neg h1]
      rcases hbad with hb | hb
      · exact absurd hb h1
      · rw [if_pos hb]
  rw [parseCmdLines, hsplit, if_neg (by simp)]
  have hg : ([w, src].getD 1 "") = src := rfl
  rw [hg, hpr]
  rfl

/-- Witness for C6: the spec's two examples.  `3,10,20` (count mismatch) and
`5,10,20,30,40,50` (odd leading count) are both rejected with the line
number. -/
theorem c6_witness :
    (cppSplit "new 3,10,20" ' ' = ["new", "3,10,20"] ∧
      parseRangeNums (cppSplit "3,10,20" ',') = .ok [3, 10, 20] ∧
      parseCmdLines 5 ["new 3,10,20"] = .error (.lineAbort "nums.empty()" 5)) ∧
    (cppSplit "new 5,10,20,30,40,50" ' ' = ["new", "5,10,20,30,40,50"] ∧
      parseRangeNums (cppSplit "5,10,20,30,40,50" ',') = .ok [5, 10, 20, 30, 40, 50] ∧
      parseCmdLines 7 ["new 5,10,20,30,40,50"]
        = .error (.lineAbort "nums.empty()" 7)) :=
  ⟨⟨by decide, by decide,
    c6_rangeset_validation "new 3,10,20" "new" "3,10,20" [3, 10, 20] 5 [] (by decide)
      (by decide) (by decide) (Or.inl (by decide))⟩,
   ⟨by decide, by decide,
    c6_rangeset_validation "new 5,10,20,30,40,50" "new" "5,10,20,30,40,50"
      [5, 10, 20, 30, 40, 50] 7 [] (by decide) (by decide) (by decide)
      (Or.inr (by decide))⟩⟩

/-- C7: decoding accepts exactly the version values 1, 2, 3 and 4 on the
first line and fatally rejects any other extracted value; for version 1 the
command loop starts after skipping only the block-count line (body =
`rest.drop 1`, first command at line 3), and for versions 2–4 after skipping
three lines (body = `rest.drop 3`, first command at line 5). -/
theorem c7_version_handling (vline : String) (rest : List String) (v : Int)
    (hv : cppParseInt vline = some v) :
    (v = 1 →
      TransferList.parse (vline :: rest)
        = match parseCmdLines 3 (rest.drop 1) with
          | .error e => .error e
          | .ok ops => .ok ⟨1, buildCommands ops⟩) ∧
    ((v = 2 ∨ v = 3 ∨ v = 4) →
      TransferList.parse (vline :: rest)
        = match parseCmdLines 5 (rest.drop 3) with
          | .error e => .error e
          | .ok ops => .ok ⟨v, buildCommands ops⟩) ∧
    (¬(v = 1 ∨ v = 2 ∨ v = 3 ∨ v = 4) →
      TransferList.parse (vline :: rest) = .error (.unknownVersion v)) := by
  refine ⟨?_, ?_, ?_⟩
  · intro h1
    subst h1
    rw [TransferList.parse, hv]
    dsimp only
    rw [if_pos (Or.inl rfl), if_neg (by decide), if_neg (by decide)]
  · intro h234
    rw [TransferList.parse, hv]
    dsimp only
    rw [if_pos (Or.inr h234)]
    have h2 : (2 : Int) ≤ v := by
      rcases h234 with h | h | h <;> subst h <;> decide
    rw [if_pos h2, if_pos h2]
  · intro hbad
    rw [TransferList.parse, hv]
    dsimp only
    rw [if_neg hbad]

/-- Witness for C7: the version line `5` is rejected as an unknown version. -/
theorem c7_witness :
    cppParseInt "5" = some 5 ∧
    TransferList.parse ["5", "0", "0", "0"] = .error (.unknownVersion 5) :=
  ⟨by decide,
   (c7_version_handling "5" ["0", "0", "0"] 5 (by decide)).2.2 (by decide)⟩

/-- C8: replaying an `Erase` or `Zero` operation reads no bytes from the
data stream and writes no bytes to the output: removing such an operation
from the replayed list leaves the final state (stream cursor and output
contents) unchanged. -/
theorem c8_erase_zero_frame (pre post : List (Command × ByteSegments)) (c : Command)
    (seg : ByteSegments) (st : DataStream × List Nat)
    (hc : c = Command.Erase ∨ c = Command.Zero) :
    replay (pre ++ (c, seg) :: post) st = replay (pre ++ post) st := by
  rw [replay, replay, List.foldl_append, List.foldl_append, List.foldl_cons]
  congr 1
  rcases hc with h | h <;> subst h <;> rfl

/-- Witness for C8: an `Erase` operation replayed on a concrete state is a
no-op. -/
theorem c8_witness :
    (Command.Erase = Command.Erase ∨ Command.Erase = Command.Zero) ∧
    replay [(Command.Erase, ⟨0, 5⟩)] (⟨[1, 2], 0⟩, [])
      = replay [] (⟨[1, 2], 0⟩, []) :=
  ⟨Or.inl rfl,
   c8_erase_zero_frame [] [] Command.Erase ⟨0, 5⟩ (⟨[1, 2], 0⟩, []) (Or.inl rfl)⟩

/-- C9: if the data stream is exhausted before a `New` operation's full block
count is satisfied, the bytes actually remaining are written followed by zero
fill, and the operation still writes exactly `size * BLOCK_SIZE` bytes at its
computed offset `begin * BLOCK_SIZE`. -/
theorem c9_short_read_zero_fill (seg : ByteSegments) (data : List Nat) (cur : Nat)
    (out : List Nat)
    (h0 : cur ≤ data.length)
    (h1 : seg.begin < seg.«end»)
    (h2 : seg.«end» * BLOCK_SIZE < U64)
    (h3 : data.length < cur + (seg.«end» - seg.begin) * BLOCK_SIZE) :
    seg.writeToFile ⟨data, cur⟩ out
      = (⟨data, data.length⟩,
         writeBytes out (seg.begin * BLOCK_SIZE)
           (data.drop cur ++
             List.replicate
               ((seg.«end» - seg.begin) * BLOCK_SIZE - (data.length - cur)) 0)) ∧
    (data.drop cur ++
        List.replicate
          ((seg.«end» - seg.begin) * BLOCK_SIZE - (data.length - cur)) 0).length
      = (seg.«end» - seg.begin) * BLOCK_SIZE := by
  constructor
  · rw [writeToFile_spec seg data cur out h0 h1 h2]
    set n := (seg.«end» - seg.begin) * BLOCK_SIZE with hn
    have hmin : min (cur + n) data.length = data.length := by omega
    have htake : (data.drop cur).take n = data.drop cur :=
      List.take_of_length_le (by rw [List.length_drop]; omega)
    rw [hmin, htake, padTo, List.length_drop]
  · rw [List.length_append, List.length_drop, List.length_replicate]
    set n := (seg.«end» - seg.begin) * BLOCK_SIZE with hn
    omega

/-- Witness for C9: a one-block `New` range against a one-byte data stream
writes that byte followed by 4095 zeros, 4096 bytes in total. -/
theorem c9_witness :
    (0 ≤ ([7] : List Nat).length ∧
      (ByteSegments.mk 0 1).begin < (ByteSegments.mk 0 1).«end» ∧
      (ByteSegments.mk 0 1).«end» * BLOCK_SIZE < U64 ∧
      ([7] : List Nat).length
        < 0 + ((ByteSegments.mk 0 1).«end» - (ByteSegments.mk 0 1).begin) * BLOCK_SIZE) ∧
    ((ByteSegments.mk 0 1).writeToFile ⟨[7], 0⟩ []
        = (⟨[7], ([7] : List Nat).length⟩,
           writeBytes [] ((ByteSegments.mk 0 1).begin * BLOCK_SIZE)
             (([7] : List Nat).drop 0 ++
               List.replicate
                 (((ByteSegments.mk 0 1).«end» - (ByteSegments.mk 0 1).begin) * BLOCK_SIZE
                   - (([7] : List Nat).length - 0)) 0)) ∧
      (([7] : List Nat).drop 0 ++
          List.replicate
            (((ByteSegments.mk 0 1).«end» - (ByteSegments.mk 0 1).begin) * BLOCK_SIZE
              - (([7] : List Nat).length - 0)) 0).length
        = ((ByteSegments.mk 0 1).«end» - (ByteSegments.mk 0 1).begin) * BLOCK_SIZE) :=
  ⟨⟨Nat.zero_le _, by decide, by decide, by decide⟩,
   c9_short_read_zero_fill ⟨0, 1⟩ [7] 0 [] (Nat.zero_le _) (by decide) (by decide)
     (by decide)⟩

/-- C10: the decode result does not depend on the content of line 2: two
line lists that differ only in their second element parse to identical
results (same success or failure, same version, same operations). -/
theorem c10_line2_ignored (l1 l2 l2' : String) (rest : List String) :
    TransferList.parse (l1 :: l2 :: rest) = TransferList.parse (l1 :: l2' :: rest) := by
  rw [TransferList.parse, TransferList.parse]
  cases hv : cppParseInt l1 with
  | none => rfl
  | some v =>
    dsimp only
    by_cases hver : v = 1 ∨ v = 2 ∨ v = 3 ∨ v = 4
    · rw [if_pos hver, if_pos hver]
      by_cases h2 : (2 : Int) ≤ v
      · rw [if_pos h2, if_pos h2]
        rfl
      · rw [if_neg h2, if_neg h2]
        rfl
    · rw [if_neg hver, if_neg hver]

end Sdat2img
